import Mathlib

/-!
# Verification of the transaction-simulator ledger core

Shallow embedding of the Rust sources of `transaction-simulator`:
* `src/business_logic/mod.rs` — data model (`Client`, `ClientTransaction`,
  `Transaction`, `Type`) and the ledger fold `apply_transaction` over the
  input stream;
* `src/business_logic/transactions_logic.rs` — `Client::apply_transaction`,
  the per-account transaction state machine;
* `src/business_logic/trait_impl.rs` — `impl From<ClientTransaction> for
  Client`, the account-creation path.

Monetary amounts are `f64` in the source; the embedding uses exact rational
arithmetic (`ℚ`), with `amount.is_sign_negative()` modelled as `a < 0` and
`amount.is_sign_positive()` as `0 ≤ a`.  The `HashMap<u32, Transaction>`
history and the `HashMap<u16, Client>` ledger are modelled as association
lists; the source only ever inserts a key that is absent, so cons-insertion
is a faithful model.
-/

/-- Embeds the Rust `enum Type` of `src/business_logic/mod.rs`. -/
inductive TxType where
  | Deposit
  | Withdrawal
  | Dispute
  | Resolve
  | ChargeBack
deriving DecidableEq, Repr

/-- Embeds the Rust `struct Transaction` (a per-account history record). -/
structure Transaction where
  amount : ℚ
  is_under_dispute : Bool
deriving DecidableEq, Repr

/-- Embeds the Rust `struct ClientTransaction` (one decoded input row). -/
structure ClientTransaction where
  id : ℕ
  transaction_type : TxType
  tx : ℕ
  amount : Option ℚ
deriving DecidableEq, Repr

/-- Association-list lookup, modelling `HashMap::get` / `get_mut` (read). -/
def alLookup {α : Type} (m : List (ℕ × α)) (k : ℕ) : Option α :=
  match m with
  | [] => none
  | (k', v) :: rest => if k' = k then some v else alLookup rest k

/-- Association-list membership, modelling `HashMap::contains_key`. -/
def alContains {α : Type} (m : List (ℕ × α)) (k : ℕ) : Bool :=
  (alLookup m k).isSome

/-- Association-list insertion.  The source only inserts keys that are
absent (every `insert` is guarded by `contains_key` / `entry.or_insert`),
so prepending is a faithful model of `HashMap::insert` there. -/
def alInsert {α : Type} (m : List (ℕ × α)) (k : ℕ) (v : α) : List (ℕ × α) :=
  (k, v) :: m

/-- In-place update of the value at a key, modelling the
`HashMap::get_mut` + mutate idiom. -/
def alModify {α : Type} (m : List (ℕ × α)) (k : ℕ) (f : α → α) : List (ℕ × α) :=
  match m with
  | [] => []
  | (k', v) :: rest =>
      if k' = k then (k', f v) :: rest else (k', v) :: alModify rest k f

/-- Embeds the Rust `struct Client` (one account). -/
structure Client where
  id : ℕ
  available : ℚ
  held : ℚ
  total : ℚ
  locked : Bool
  transations_history : List (ℕ × Transaction)
deriving DecidableEq, Repr

/-- Embeds `Client::default()` with the given id filled in
(`Self { id, ..Default::default() }`). -/
def defaultClient (id : ℕ) : Client :=
  { id := id, available := 0, held := 0, total := 0, locked := false
  , transations_history := [] }

/-- The global guard of `Client::apply_transaction`:
`transaction.amount.is_some_and(|amount| amount.is_sign_negative())`. -/
def isNegAmount (t : ClientTransaction) : Bool :=
  match t.amount with
  | some a => decide (a < 0)
  | none => false

/-- Embeds `Client::apply_transaction` of
`src/business_logic/transactions_logic.rs` (lines 4–79).  The match-arm
guards `if !self.transations_history.contains_key(&transaction.tx)` on the
`Deposit`/`Withdrawal` arms fall through to the final `_ => {}` no-op when
they fail, exactly as in Rust. -/
def Client.apply_transaction (c : Client) (t : ClientTransaction) : Client :=
  if isNegAmount t || c.locked then c
  else
    match t.transaction_type with
    | TxType.Deposit =>
        if alContains c.transations_history t.tx then c
        else
          match t.amount with
          | some amount =>
              { c with
                available := c.available + amount
                total := c.total + amount
                transations_history :=
                  alInsert c.transations_history t.tx
                    { amount := amount, is_under_dispute := false } }
          | none => c
    | TxType.Withdrawal =>
        if alContains c.transations_history t.tx then c
        else
          match t.amount with
          | some amount =>
              if c.available < amount then c
              else
                { c with
                  available := c.available - amount
                  total := c.total - amount
                  transations_history :=
                    alInsert c.transations_history t.tx
                      { amount := amount, is_under_dispute := false } }
          | none => c
    | TxType.Dispute =>
        match alLookup c.transations_history t.tx with
        | some r =>
            if r.is_under_dispute then c
            else
              { c with
                held := c.held + r.amount
                available := c.available - r.amount
                transations_history :=
                  alModify c.transations_history t.tx
                    (fun r => { r with is_under_dispute := true }) }
        | none => c
    | TxType.Resolve =>
        match alLookup c.transations_history t.tx with
        | some r =>
            if r.is_under_dispute then
              { c with
                held := c.held - r.amount
                available := c.available + r.amount }
            else c
        | none => c
    | TxType.ChargeBack =>
        match alLookup c.transations_history t.tx with
        | some r =>
            if r.is_under_dispute then
              { c with
                held := c.held - r.amount
                total := c.total - r.amount
                locked := true }
            else c
        | none => c

/-- Embeds `impl From<ClientTransaction> for Client` of
`src/business_logic/trait_impl.rs` (lines 56–84): the account-creation
path for a brand-new client. -/
def clientFrom (t : ClientTransaction) : Client :=
  match t.transaction_type, t.amount with
  | TxType.Deposit, some a =>
      if 0 ≤ a then
        { id := t.id, available := a, held := 0, total := a, locked := false
        , transations_history := [(t.tx, { amount := a, is_under_dispute := false })] }
      else defaultClient t.id
  | TxType.Deposit, none => defaultClient t.id
  | _, _ => defaultClient t.id

/-- Folding a list of transactions through the state machine. -/
def applyList (l : List ClientTransaction) (c : Client) : Client :=
  l.foldl Client.apply_transaction c

/-- One step of the ledger loop of `apply_transaction` in
`src/business_logic/mod.rs` (lines 117–127):
`entry(id).and_modify(apply_transaction).or_insert(Client::from)`. -/
def ledgerStep (m : List (ℕ × Client)) (t : ClientTransaction) : List (ℕ × Client) :=
  match alLookup m t.id with
  | some _ => alModify m t.id (fun c => c.apply_transaction t)
  | none => alInsert m t.id (clientFrom t)

/-- The whole ledger run over a decoded input stream. -/
def ledgerRun (l : List ClientTransaction) : List (ℕ × Client) :=
  l.foldl ledgerStep []

/-! ## Association-list lemmas -/

theorem alLookup_alModify {α : Type} (m : List (ℕ × α)) (k j : ℕ) (f : α → α) :
    alLookup (alModify m k f) j =
      if k = j then (alLookup m j).map f else alLookup m j := by
  induction m with
  | nil => simp [alModify, alLookup]
  | cons hd tl ih =>
      obtain ⟨a, v⟩ := hd
      by_cases hak : a = k
      · subst hak
        by_cases haj : a = j <;> simp [alModify, alLookup, haj]
      · by_cases haj : a = j
        · subst haj
          simp [alModify, alLookup, hak, Ne.symm hak]
        · simp [alModify, alLookup, hak, haj, ih]

theorem alContains_alModify {α : Type} (m : List (ℕ × α)) (k j : ℕ) (f : α → α) :
    alContains (alModify m k f) j = alContains m j := by
  simp only [alContains, alLookup_alModify]
  by_cases h : k = j
  · rw [if_pos h]
    cases alLookup m j <;> simp
  · simp [h]

theorem alLookup_alInsert {α : Type} (m : List (ℕ × α)) (k j : ℕ) (v : α) :
    alLookup (alInsert m k v) j = if k = j then some v else alLookup m j := by
  simp [alInsert, alLookup]

/-! ## Guard and step lemmas for the state machine -/

theorem amount_nonneg_of_not_neg (t : ClientTransaction) (a : ℚ)
    (hg : isNegAmount t = false) (ha : t.amount = some a) : 0 ≤ a := by
  simp [isNegAmount, ha, decide_eq_false_iff_not, not_lt] at hg
  exact hg

/-- One step preserves `total = available + held`. -/
theorem apply_total_eq (c : Client) (t : ClientTransaction)
    (h : c.total = c.available + c.held) :
    (c.apply_transaction t).total =
      (c.apply_transaction t).available + (c.apply_transaction t).held := by
  unfold Client.apply_transaction
  repeat' split
  all_goals (try exact h)
  all_goals (simp_all; try ring)

/-- The account-creation path satisfies `total = available + held`. -/
theorem clientFrom_total_eq (t : ClientTransaction) :
    (clientFrom t).total = (clientFrom t).available + (clientFrom t).held := by
  unfold clientFrom defaultClient
  repeat' split
  all_goals simp

theorem applyList_total_eq (l : List ClientTransaction) (c : Client)
    (h : c.total = c.available + c.held) :
    (applyList l c).total = (applyList l c).available + (applyList l c).held := by
  induction l generalizing c with
  | nil => simpa [applyList] using h
  | cons hd tl ih =>
      simpa [applyList] using ih (c.apply_transaction hd) (apply_total_eq c hd h)

/-- C1: For every account reachable by applying any finite sequence of
transactions (including the account-creation path for the first
transaction), the equation `total == available + held` holds after every
mutation, under exact arithmetic. -/
theorem reachable_total_eq_available_add_held (t0 : ClientTransaction)
    (l : List ClientTransaction) :
    (applyList l (clientFrom t0)).total =
      (applyList l (clientFrom t0)).available +
        (applyList l (clientFrom t0)).held :=
  applyList_total_eq l (clientFrom t0) (clientFrom_total_eq t0)

/-! ## Non-negativity: the invariant claimed by the spec, and what holds -/

/-- No history record of the account is flagged as under dispute. -/
def NoDisputeFlag (c : Client) : Prop :=
  ∀ k r, alLookup c.transations_history k = some r → r.is_under_dispute = false

/-- Invariant maintained by dispute-free runs: `available` is non-negative,
`held` is zero and no record is flagged. -/
def MonInv (c : Client) : Prop :=
  0 ≤ c.available ∧ c.held = 0 ∧ NoDisputeFlag c

theorem monInv_step (c : Client) (t : ClientTransaction)
    (hty : t.transaction_type ≠ TxType.Dispute)
    (h : MonInv c) : MonInv (c.apply_transaction t) := by
  obtain ⟨ha, hh, hf⟩ := h
  unfold Client.apply_transaction
  repeat' split
  all_goals try exact ⟨ha, hh, hf⟩
  all_goals try (have hfd := hf _ _ (by assumption); simp_all)
  all_goals simp_all [isNegAmount, not_lt, MonInv, NoDisputeFlag, alLookup_alInsert]
  all_goals try constructor
  all_goals try linarith
  all_goals intro k r hkr
  all_goals split at hkr <;> try simp_all
  all_goals first
    | exact hf _ _ hkr
    | simp [← hkr]

theorem clientFrom_monInv (t : ClientTransaction) : MonInv (clientFrom t) := by
  unfold clientFrom defaultClient MonInv NoDisputeFlag
  repeat' split
  all_goals simp_all [alLookup]

theorem monInv_applyList (l : List ClientTransaction) (c : Client)
    (hl : ∀ t ∈ l, t.transaction_type ≠ TxType.Dispute)
    (h : MonInv c) : MonInv (applyList l c) := by
  induction l generalizing c with
  | nil => simpa [applyList] using h
  | cons hd tl ih =>
      have hstep := monInv_step c hd (hl hd (by simp)) h
      simpa [applyList] using
        ih (c.apply_transaction hd) (fun t ht => hl t (by simp [ht])) hstep

/-- C2 (counterexample): the sequence deposit 5 (tx 1), withdrawal 5 (tx 2),
dispute of tx 2 respects every stated per-type precondition, yet drives
`available` below zero. -/
theorem dispute_withdrawal_negative_available :
    (applyList [⟨1, TxType.Withdrawal, 2, some 5⟩, ⟨1, TxType.Dispute, 2, none⟩]
        (clientFrom ⟨1, TxType.Deposit, 1, some 5⟩)).available < 0 := by
  norm_num [applyList, clientFrom, Client.apply_transaction, defaultClient,
    isNegAmount, alContains, alLookup, alInsert, alModify]

/-- C2 (amended): for every account and every reachable sequence of
transactions that contains no Dispute, `available ≥ 0`, `held ≥ 0` and
`total ≥ 0` hold at every point.  A Dispute can drive `available` (and,
after a ChargeBack, `total`) negative when the disputed funds have already
been withdrawn, and a repeated Resolve can drive `held` negative. -/
theorem no_dispute_nonneg_balances (t0 : ClientTransaction)
    (l : List ClientTransaction)
    (hl : ∀ t ∈ l, t.transaction_type ≠ TxType.Dispute) :
    0 ≤ (applyList l (clientFrom t0)).available ∧
      0 ≤ (applyList l (clientFrom t0)).held ∧
      0 ≤ (applyList l (clientFrom t0)).total := by
  have hm := monInv_applyList l (clientFrom t0) hl (clientFrom_monInv t0)
  have ht := applyList_total_eq l (clientFrom t0) (clientFrom_total_eq t0)
  obtain ⟨ha, hh, -⟩ := hm
  refine ⟨ha, by simp [hh], ?_⟩
  rw [ht, hh]
  simpa using ha

/-- C2 (witness for the amended theorem): deposit 5 then withdrawal 3
keeps all balances non-negative. -/
theorem no_dispute_nonneg_balances_witness :
    0 ≤ (applyList [⟨1, TxType.Withdrawal, 2, some 3⟩]
          (clientFrom ⟨1, TxType.Deposit, 1, some 5⟩)).available ∧
      0 ≤ (applyList [⟨1, TxType.Withdrawal, 2, some 3⟩]
            (clientFrom ⟨1, TxType.Deposit, 1, some 5⟩)).held ∧
      0 ≤ (applyList [⟨1, TxType.Withdrawal, 2, some 3⟩]
            (clientFrom ⟨1, TxType.Deposit, 1, some 5⟩)).total :=
  no_dispute_nonneg_balances ⟨1, TxType.Deposit, 1, some 5⟩
    [⟨1, TxType.Withdrawal, 2, some 3⟩]
    (by intro t ht; simp only [List.mem_singleton] at ht; subst ht; simp)

/-! ## Locked accounts -/

/-- C3: For every account whose `locked` flag is true, applying any further
transaction of any type leaves the account's `available`, `held`, `total`,
`locked` and history entirely unchanged. -/
theorem locked_account_immutable (c : Client) (t : ClientTransaction)
    (h : c.locked = true) : c.apply_transaction t = c := by
  unfold Client.apply_transaction
  simp [h]

/-- C3 (witness): a concrete locked account is unchanged by a deposit. -/
theorem locked_account_immutable_witness :
    ({ id := 1, available := 2, held := 0, total := 2, locked := true
     , transations_history := [] } : Client).apply_transaction
      ⟨1, TxType.Deposit, 9, some 3⟩ =
    { id := 1, available := 2, held := 0, total := 2, locked := true
    , transations_history := [] } :=
  locked_account_immutable _ _ rfl

/-! ## The account-creation path versus the state machine -/

theorem clientFrom_eq_apply_default (t : ClientTransaction)
    (hw : t.transaction_type = TxType.Withdrawal → t.amount ≠ some 0) :
    clientFrom t = (defaultClient t.id).apply_transaction t := by
  rcases t with ⟨tid, ty, tx, amt⟩
  unfold clientFrom defaultClient Client.apply_transaction isNegAmount alContains alLookup
  cases ty <;> rcases amt with _ | a <;> simp_all
  · rcases lt_or_le a 0 with hlt | hle
    · simp [hlt, not_le.2 hlt]
    · simp [not_lt.2 hle, hle, alInsert]
  · rcases lt_or_le a 0 with hlt | hle
    · simp [hlt]
    · have hpos : 0 < a := lt_of_le_of_ne hle (Ne.symm hw)
      simp [not_lt.2 hle, hpos]

/-- C4 (counterexample): for a brand-new client whose first transaction is
a Withdrawal of exactly 0, the ledger's creation path (`Client::from`)
yields an empty history, while applying the same transaction to a
zero-value account through the state machine records the zero-amount
withdrawal in history — the two paths differ. -/
theorem creation_path_zero_withdrawal_differs :
    ledgerRun [⟨1, TxType.Withdrawal, 7, some 0⟩] ≠
      [(1, (defaultClient 1).apply_transaction ⟨1, TxType.Withdrawal, 7, some 0⟩)] := by
  norm_num [ledgerRun, ledgerStep, clientFrom, defaultClient, Client.apply_transaction,
    isNegAmount, alContains, alLookup, alInsert]

/-- C4 (amended): unless the first transaction is a Withdrawal of exactly
0, the ledger's account-creation path for a brand-new client coincides
with constructing a zero-value account and applying the transaction
through the state machine; and a brand-new client whose first transaction
carries a negative amount ends up existing at zero balance with no history
entry. -/
theorem creation_path_refines_state_machine (t : ClientTransaction)
    (hw : t.transaction_type = TxType.Withdrawal → t.amount ≠ some 0) :
    ledgerRun [t] = [(t.id, (defaultClient t.id).apply_transaction t)] ∧
      (∀ a, t.amount = some a → a < 0 →
        ledgerRun [t] = [(t.id, defaultClient t.id)]) := by
  constructor
  · simp [ledgerRun, ledgerStep, alLookup, alInsert, clientFrom_eq_apply_default t hw]
  · intro a ha hneg
    rcases t with ⟨tid, ty, tx, amt⟩
    simp only at ha
    subst ha
    cases ty <;>
      simp [ledgerRun, ledgerStep, alLookup, alInsert, clientFrom, not_le.2 hneg]

/-- C4 (witness for the amended theorem): a first deposit of 5 creates the
same account through both paths. -/
theorem creation_path_refines_state_machine_witness :
    ledgerRun [⟨1, TxType.Deposit, 1, some 5⟩] =
      [(1, (defaultClient 1).apply_transaction ⟨1, TxType.Deposit, 1, some 5⟩)] :=
  (creation_path_refines_state_machine ⟨1, TxType.Deposit, 1, some 5⟩
    (fun h => nomatch h)).1

/-! ## Resolve semantics -/

/-- C5: For every account and every Resolve whose `tx_id` is in history and
currently disputed, the effect is `held -= amount` and
`available += amount`, the history (and so the record's disputed flag) is
left entirely unchanged, and the resolved transaction remains marked as
disputed afterwards. -/
theorem resolve_keeps_dispute_flag (c : Client) (t : ClientTransaction)
    (r : Transaction)
    (hty : t.transaction_type = TxType.Resolve)
    (hg : isNegAmount t = false) (hl : c.locked = false)
    (hr : alLookup c.transations_history t.tx = some r)
    (hd : r.is_under_dispute = true) :
    c.apply_transaction t =
        { c with held := c.held - r.amount, available := c.available + r.amount } ∧
      alLookup (c.apply_transaction t).transations_history t.tx = some r := by
  have heq : c.apply_transaction t =
      { c with held := c.held - r.amount, available := c.available + r.amount } := by
    unfold Client.apply_transaction
    simp [hg, hl, hty, hr, hd]
  exact ⟨heq, by rw [heq]; exact hr⟩

/-- A concrete account holding a disputed deposit of 5. -/
def resolveWitnessClient : Client :=
  { id := 1, available := 0, held := 5, total := 5, locked := false
  , transations_history := [(1, { amount := 5, is_under_dispute := true })] }

/-- C5 (witness): resolving a concrete disputed deposit of 5. -/
theorem resolve_keeps_dispute_flag_witness :
    resolveWitnessClient.apply_transaction ⟨1, TxType.Resolve, 1, none⟩ =
        { resolveWitnessClient with
          held := resolveWitnessClient.held - (5:ℚ),
          available := resolveWitnessClient.available + (5:ℚ) } ∧
      alLookup (resolveWitnessClient.apply_transaction
          ⟨1, TxType.Resolve, 1, none⟩).transations_history 1 =
        some { amount := 5, is_under_dispute := true } :=
  resolve_keeps_dispute_flag resolveWitnessClient ⟨1, TxType.Resolve, 1, none⟩
    { amount := 5, is_under_dispute := true } rfl rfl rfl rfl rfl

/-! ## Duplicate transaction identifiers -/

theorem apply_contains_noop (c : Client) (t : ClientTransaction)
    (hty : t.transaction_type = TxType.Deposit ∨
      t.transaction_type = TxType.Withdrawal)
    (hc : alContains c.transations_history t.tx = true) :
    c.apply_transaction t = c := by
  unfold Client.apply_transaction
  rcases hty with h | h <;> simp [h, hc]

theorem apply_contains_after (c : Client) (t : ClientTransaction) :
    c.apply_transaction t = c ∨
      alContains (c.apply_transaction t).transations_history t.tx = true := by
  unfold Client.apply_transaction
  repeat' split
  all_goals try exact Or.inl rfl
  all_goals refine Or.inr ?_
  all_goals simp_all [alContains, alLookup_alInsert, alLookup_alModify]

/-- C6: For every account, a Deposit or Withdrawal whose `tx_id` is already
present in that account's history is a no-op (so a repeat identifier never
overwrites the stored record), and replaying the exact same monetary
transaction twice changes state only once. -/
theorem monetary_replay_idempotent (c : Client) (t : ClientTransaction)
    (hty : t.transaction_type = TxType.Deposit ∨
      t.transaction_type = TxType.Withdrawal) :
    (alContains c.transations_history t.tx = true → c.apply_transaction t = c) ∧
      (c.apply_transaction t).apply_transaction t = c.apply_transaction t := by
  refine ⟨fun hc => apply_contains_noop c t hty hc, ?_⟩
  rcases apply_contains_after c t with h1 | h1
  · rw [h1]
    exact h1
  · exact apply_contains_noop _ t hty h1

/-- A concrete account whose history already holds transaction 3. -/
def replayWitnessClient : Client :=
  { id := 1, available := 2, held := 0, total := 2, locked := false
  , transations_history := [(3, { amount := 2, is_under_dispute := false })] }

/-- C6 (witness): replaying a deposit with an already-seen identifier. -/
theorem monetary_replay_idempotent_witness :
    (alContains replayWitnessClient.transations_history 3 = true →
        replayWitnessClient.apply_transaction ⟨1, TxType.Deposit, 3, some 2⟩ =
          replayWitnessClient) ∧
      (replayWitnessClient.apply_transaction
            ⟨1, TxType.Deposit, 3, some 2⟩).apply_transaction
          ⟨1, TxType.Deposit, 3, some 2⟩ =
        replayWitnessClient.apply_transaction ⟨1, TxType.Deposit, 3, some 2⟩ :=
  monetary_replay_idempotent replayWitnessClient ⟨1, TxType.Deposit, 3, some 2⟩
    (Or.inl rfl)

/-! ## Withdrawal semantics -/

/-- C7: a Withdrawal with amount present, `tx_id` unseen and
`available ≥ amount` subtracts the amount from both `available` and
`total` and records `{amount, disputed := false}` in history; a Withdrawal
with `available < amount` leaves the account completely unchanged. -/
theorem withdrawal_semantics (c : Client) (t : ClientTransaction) (a : ℚ)
    (hty : t.transaction_type = TxType.Withdrawal) (ha : t.amount = some a) :
    (c.locked = false → 0 ≤ a → alContains c.transations_history t.tx = false →
        a ≤ c.available →
        c.apply_transaction t =
          { c with
            available := c.available - a,
            total := c.total - a,
            transations_history :=
              alInsert c.transations_history t.tx
                { amount := a, is_under_dispute := false } }) ∧
      (c.available < a → c.apply_transaction t = c) := by
  constructor
  · intro hl hpos hc hle
    unfold Client.apply_transaction
    simp [hty, ha, hl, hc, isNegAmount, not_lt.2 hpos, not_lt.2 hle]
  · intro hlt
    unfold Client.apply_transaction
    rcases lt_or_le a 0 with hneg | hpos
    · simp [isNegAmount, ha, hneg]
    · by_cases hc : alContains c.transations_history t.tx = true
      · simp [hty, hc, isNegAmount, ha, not_lt.2 hpos]
      · simp [hty, isNegAmount, ha, not_lt.2 hpos, hc, hlt]

/-- A concrete account with available 5 and empty history. -/
def withdrawWitnessClient : Client :=
  { id := 1, available := 5, held := 0, total := 5, locked := false
  , transations_history := [] }

/-- C7 (witness): from available 5, a withdrawal of 3 has the stated
effect, and a withdrawal below the balance is vacuously covered. -/
theorem withdrawal_semantics_witness :
    (withdrawWitnessClient.locked = false → 0 ≤ (3:ℚ) →
        alContains withdrawWitnessClient.transations_history 2 = false →
        (3:ℚ) ≤ withdrawWitnessClient.available →
        withdrawWitnessClient.apply_transaction ⟨1, TxType.Withdrawal, 2, some 3⟩ =
          { withdrawWitnessClient with
            available := withdrawWitnessClient.available - 3,
            total := withdrawWitnessClient.total - 3,
            transations_history :=
              alInsert withdrawWitnessClient.transations_history 2
                { amount := 3, is_under_dispute := false } }) ∧
      (withdrawWitnessClient.available < 3 →
        withdrawWitnessClient.apply_transaction ⟨1, TxType.Withdrawal, 2, some 3⟩ =
          withdrawWitnessClient) :=
  withdrawal_semantics withdrawWitnessClient ⟨1, TxType.Withdrawal, 2, some 3⟩ 3
    rfl rfl

/-! ## ChargeBack semantics -/

/-- A concrete account holding a disputed deposit of 5, for the
ChargeBack witness. -/
def chargebackWitnessClient : Client :=
  { id := 1, available := 0, held := 5, total := 5, locked := false
  , transations_history := [(1, { amount := 5, is_under_dispute := true })] }

/-- C8: for every account and every ChargeBack whose `tx_id` is in
history and currently disputed, the effect is `held -= amount`,
`total -= amount` and `locked := true`; and the ledger run
deposit 5, dispute, chargeback ends with available, held and total all 0
and the account locked. -/
theorem chargeback_semantics (c : Client) (t : ClientTransaction)
    (r : Transaction)
    (hty : t.transaction_type = TxType.ChargeBack)
    (hg : isNegAmount t = false) (hl : c.locked = false)
    (hr : alLookup c.transations_history t.tx = some r)
    (hd : r.is_under_dispute = true) :
    c.apply_transaction t =
        { c with
          held := c.held - r.amount,
          total := c.total - r.amount,
          locked := true } ∧
      ledgerRun [⟨1, TxType.Deposit, 1, some 5⟩, ⟨1, TxType.Dispute, 1, none⟩,
          ⟨1, TxType.ChargeBack, 1, none⟩] =
        [(1, { id := 1, available := 0, held := 0, total := 0, locked := true
             , transations_history :=
                [(1, { amount := 5, is_under_dispute := true })] })] := by
  constructor
  · unfold Client.apply_transaction
    simp [hg, hl, hty, hr, hd]
  · norm_num [ledgerRun, ledgerStep, clientFrom, defaultClient,
      Client.apply_transaction, isNegAmount, alContains, alLookup, alInsert,
      alModify]

/-- C8 (witness): charging back a concrete disputed deposit of 5. -/
theorem chargeback_semantics_witness :
    chargebackWitnessClient.apply_transaction ⟨1, TxType.ChargeBack, 1, none⟩ =
        { chargebackWitnessClient with
          held := chargebackWitnessClient.held - (5:ℚ),
          total := chargebackWitnessClient.total - (5:ℚ),
          locked := true } ∧
      ledgerRun [⟨1, TxType.Deposit, 1, some 5⟩, ⟨1, TxType.Dispute, 1, none⟩,
          ⟨1, TxType.ChargeBack, 1, none⟩] =
        [(1, { id := 1, available := 0, held := 0, total := 0, locked := true
             , transations_history :=
                [(1, { amount := 5, is_under_dispute := true })] })] :=
  chargeback_semantics chargebackWitnessClient ⟨1, TxType.ChargeBack, 1, none⟩
    { amount := 5, is_under_dispute := true } rfl rfl rfl rfl rfl

/-! ## Dispute-control transactions never create history -/

/-- C9: a Dispute, Resolve or ChargeBack never creates a history entry;
when it references an unknown `tx_id`, or an already-disputed one (for
Dispute), or a not-disputed one (for Resolve/ChargeBack), it is a silent
no-op; and when such a transaction is the client's first, the account is
created with all-zero fields. -/
theorem dispute_control_no_creation (c : Client) (t : ClientTransaction)
    (hty : t.transaction_type = TxType.Dispute ∨
      t.transaction_type = TxType.Resolve ∨
      t.transaction_type = TxType.ChargeBack) :
    (∀ k, alContains (c.apply_transaction t).transations_history k =
        alContains c.transations_history k) ∧
      (alLookup c.transations_history t.tx = none → c.apply_transaction t = c) ∧
      (∀ r, alLookup c.transations_history t.tx = some r →
        (t.transaction_type = TxType.Dispute → r.is_under_dispute = true →
            c.apply_transaction t = c) ∧
          ((t.transaction_type = TxType.Resolve ∨
              t.transaction_type = TxType.ChargeBack) →
            r.is_under_dispute = false → c.apply_transaction t = c)) ∧
      clientFrom t = defaultClient t.id ∧
      ledgerRun [⟨1, TxType.Dispute, 99, none⟩] = [(1, defaultClient 1)] := by
  refine ⟨?_, ?_, ?_, ?_, ?_⟩
  · intro k
    unfold Client.apply_transaction
    repeat' split
    all_goals simp_all [alContains_alModify]
  · intro hnone
    unfold Client.apply_transaction
    rcases hty with h | h | h <;> simp [h, hnone]
  · intro r hr
    constructor
    · intro h hflag
      unfold Client.apply_transaction
      simp [h, hr, hflag]
    · intro h hflag
      unfold Client.apply_transaction
      rcases h with h | h <;> simp [h, hr, hflag]
  · rcases t with ⟨tid, ty, tx, amt⟩
    rcases hty with h | h | h <;> simp only at h <;> subst h <;>
      cases amt <;> simp [clientFrom]
  · norm_num [ledgerRun, ledgerStep, clientFrom, defaultClient, alLookup, alInsert]

/-- C9 (witness): a Dispute of a transaction that never existed, arriving
as the client's first transaction, creates an all-zero account and changes
nothing else. -/
theorem dispute_control_no_creation_witness :
    alContains ((defaultClient 1).apply_transaction
          ⟨1, TxType.Dispute, 99, none⟩).transations_history 99 =
        alContains (defaultClient 1).transations_history 99 ∧
      (defaultClient 1).apply_transaction ⟨1, TxType.Dispute, 99, none⟩ =
        defaultClient 1 ∧
      clientFrom ⟨1, TxType.Dispute, 99, none⟩ = defaultClient 1 ∧
      ledgerRun [⟨1, TxType.Dispute, 99, none⟩] = [(1, defaultClient 1)] :=
  ⟨(dispute_control_no_creation (defaultClient 1) ⟨1, TxType.Dispute, 99, none⟩
      (Or.inl rfl)).1 99,
    (dispute_control_no_creation (defaultClient 1) ⟨1, TxType.Dispute, 99, none⟩
      (Or.inl rfl)).2.1 rfl,
    (dispute_control_no_creation (defaultClient 1) ⟨1, TxType.Dispute, 99, none⟩
      (Or.inl rfl)).2.2.2.1,
    (dispute_control_no_creation (defaultClient 1) ⟨1, TxType.Dispute, 99, none⟩
      (Or.inl rfl)).2.2.2.2⟩

/-! ## The disputed flag is never reset -/

theorem disputed_preserved_step (c : Client) (t : ClientTransaction) (T : ℕ)
    (r : Transaction) (hr : alLookup c.transations_history T = some r)
    (hd : r.is_under_dispute = true) :
    ∃ s, alLookup (c.apply_transaction t).transations_history T = some s ∧
      s.is_under_dispute = true ∧ s.amount = r.amount := by
  unfold Client.apply_transaction
  repeat' split
  all_goals try exact ⟨r, hr, hd, rfl⟩
  all_goals simp only [alLookup_alInsert, alLookup_alModify]
  all_goals split
  all_goals simp_all [alContains]

theorem disputed_preserved_list (l : List ClientTransaction) (c : Client)
    (T : ℕ) (r : Transaction)
    (hr : alLookup c.transations_history T = some r)
    (hd : r.is_under_dispute = true) :
    ∃ s, alLookup (applyList l c).transations_history T = some s ∧
      s.is_under_dispute = true := by
  induction l generalizing c r with
  | nil => exact ⟨r, hr, hd⟩
  | cons t0 tl ih =>
      obtain ⟨s, hs1, hs2, -⟩ := disputed_preserved_step c t0 T r hr hd
      obtain ⟨u, hu1, hu2⟩ := ih (c.apply_transaction t0) s hs1 hs2
      exact ⟨u, by simpa [applyList] using hu1, hu2⟩

/-- C10: once a transaction record of an account is marked as under
dispute, every later Dispute of that `tx_id` — after any intermediate
sequence, including intervening Resolves — is a no-op, because no
operation ever resets the record's `is_under_dispute` flag; and a
resolved transaction can be Resolved again, moving its amount from `held`
to `available` a second time. -/
theorem dispute_flag_monotone_no_redispute (c : Client) (T : ℕ)
    (r : Transaction)
    (hr : alLookup c.transations_history T = some r)
    (hd : r.is_under_dispute = true) :
    (∀ l t, t.transaction_type = TxType.Dispute → t.tx = T →
        (applyList l c).apply_transaction t = applyList l c) ∧
      (∀ t, t.transaction_type = TxType.Resolve → t.tx = T →
        isNegAmount t = false → c.locked = false →
        ((c.apply_transaction t).apply_transaction t).held =
            c.held - 2 * r.amount ∧
          ((c.apply_transaction t).apply_transaction t).available =
            c.available + 2 * r.amount) := by
  constructor
  · intro l t h1 h2
    obtain ⟨s, hs1, hs2⟩ := disputed_preserved_list l c T r hr hd
    by_cases hg : (isNegAmount t || (applyList l c).locked) = true
    · unfold Client.apply_transaction
      simp [hg]
    · unfold Client.apply_transaction
      rw [← h2] at hs1
      simp [hg, h1, hs1, hs2]
  · intro t h1 h2 hg hl
    have e1 : c.apply_transaction t =
        { c with
                held := c.held - r.amount,
                available := c.available + r.amount } := by
      unfold Client.apply_transaction
      rw [h2]
      simp [hg, hl, h1, hr, hd]
    have e2 : ({ c with
                held := c.held - r.amount,
                available := c.available + r.amount } : Client).apply_transaction t =
        { c with
                held := c.held - r.amount - r.amount,
                available := c.available + r.amount + r.amount } := by
      unfold Client.apply_transaction
      rw [h2]
      simp [hg, hl, h1, hr, hd]
    rw [e1, e2]
    constructor <;> simp <;> ring

/-- A concrete account holding a disputed deposit of 5, for the
re-dispute witness. -/
def redisputeWitnessClient : Client :=
  { id := 1, available := 0, held := 5, total := 5, locked := false
  , transations_history := [(1, { amount := 5, is_under_dispute := true })] }

/-- C10 (witness): on a concrete account with a disputed deposit of 5, a
further Dispute of it is a no-op and a double Resolve moves 5 from `held`
to `available` twice. -/
theorem dispute_flag_monotone_no_redispute_witness :
    (applyList [] redisputeWitnessClient).apply_transaction
        ⟨1, TxType.Dispute, 1, none⟩ = applyList [] redisputeWitnessClient ∧
      ((redisputeWitnessClient.apply_transaction
            ⟨1, TxType.Resolve, 1, none⟩).apply_transaction
          ⟨1, TxType.Resolve, 1, none⟩).held =
          redisputeWitnessClient.held - 2 * (5:ℚ) ∧
        ((redisputeWitnessClient.apply_transaction
              ⟨1, TxType.Resolve, 1, none⟩).apply_transaction
            ⟨1, TxType.Resolve, 1, none⟩).available =
          redisputeWitnessClient.available + 2 * (5:ℚ) :=
  ⟨(dispute_flag_monotone_no_redispute redisputeWitnessClient 1
        { amount := 5, is_under_dispute := true } rfl rfl).1 []
      ⟨1, TxType.Dispute, 1, none⟩ rfl rfl,
    (dispute_flag_monotone_no_redispute redisputeWitnessClient 1
        { amount := 5, is_under_dispute := true } rfl rfl).2
      ⟨1, TxType.Resolve, 1, none⟩ rfl rfl rfl rfl⟩
